import Mathlib

/-!
Verification of the document OCR/export pipeline.

A shallow embedding of the pure cores of the pipeline:

* `cropImageFromBase64` — the coordinate arithmetic of the region cropper
  (`src/services/fileProcessing.ts`), with the canvas encoding abstracted away:
  the result is `none` exactly when the source resolves the empty string
  (the "no crop" signal).
* the OCR response parser and LaTeX normalizer of `transcribeImage`
  (`geminiService.ts`): JavaScript values reachable from `JSON.parse` are
  modelled by `JsVal`; member access models the JavaScript semantics where
  reading a property of `null`/`undefined` throws (`Except.error`);
  `JSON.parse` itself and the asynchronous crop call are parameters of the
  model, so that parse failure and crop failure become hypotheses.
* the regex rewrite chain of the normalizer is implemented as fuel-indexed
  character scanners that reproduce the JavaScript regex semantics
  (leftmost match, lazy quantifiers, backtracking of the optional brace,
  negative lookahead) of the four `replace` calls; fuel equal to the input
  length always suffices since every step consumes at least one character.
* the clipboard exporter (`copyToClipboard`) and the binary document exporter
  (`generateDocx`): the shared image-reference regex
  `!\[.*?\]\((data:image\/.*?;base64,(.*?))\)` is implemented as a
  backtracking matcher `findImageMatch`; image measurement
  (`getImageDimensions`) is a parameter (its promise always resolves, via
  the 400 × 300 fallback), while the deterministic `atob` decode of the
  payload is modelled by `atobOk`, whose failure takes the exporter's
  catch path to the `[Image Error]` placeholder.
-/

namespace NVT

/-! ## JavaScript value model -/

/-- A JavaScript value as reachable from `JSON.parse`, plus `undefinedV`
(the JavaScript `undefined`) which member access on objects lacking the key
produces.  Objects are association lists; `JSON.parse` produces objects with
distinct keys, looked up with `List.lookup`. -/
inductive JsVal where
  | undefinedV : JsVal
  | null : JsVal
  | bool : Bool → JsVal
  | num : ℚ → JsVal
  | str : String → JsVal
  | arr : List JsVal → JsVal
  | obj : List (String × JsVal) → JsVal

/-- JavaScript truthiness.  (`NaN` does not arise from `JSON.parse`.) -/
def JsVal.truthy : JsVal → Bool
  | .undefinedV => false
  | .null => false
  | .bool b => b
  | .num q => decide (q ≠ 0)
  | .str s => decide (s ≠ "")
  | .arr _ => true
  | .obj _ => true

/-- `Array.isArray`. -/
def JsVal.isArray : JsVal → Bool
  | .arr _ => true
  | _ => false

/-- Strict equality `v === "t"` against a string literal. -/
def JsVal.isStr (v : JsVal) (t : String) : Bool :=
  match v with
  | .str s => s == t
  | _ => false

/-- JavaScript member access `v.k`: throws a `TypeError` on `null` and
`undefined`; yields the field on objects (or `undefined` when absent); yields
`undefined` on every other value (none of the relevant keys is a built-in
property of strings, numbers, booleans or arrays). -/
def JsVal.getMember : JsVal → String → Except Unit JsVal
  | .undefinedV, _ => .error ()
  | .null, _ => .error ()
  | .obj fields, k => .ok ((fields.lookup k).getD .undefinedV)
  | _, _ => .ok .undefinedV

/-! ## Character classes of the JavaScript regexes -/

/-- The JavaScript `\s` class (`/\s/`): ASCII whitespace, NBSP, the Unicode
space separators, line/paragraph separators and BOM. -/
def jsWhitespace (c : Char) : Bool :=
  c = ' ' ∨ c = '\t' ∨ c = '\n' ∨ c = '\x0b' ∨ c = '\x0c' ∨ c = '\r' ∨
  c = '\xa0' ∨ c = '\u1680' ∨
  ('\u2000' ≤ c ∧ c ≤ '\u200a') ∨
  c = '\u2028' ∨ c = '\u2029' ∨ c = '\u202f' ∨ c = '\u205f' ∨
  c = '\u3000' ∨ c = '\ufeff'

/-- The `[A-Z]` class. -/
def isUpper (c : Char) : Bool := 'A' ≤ c ∧ c ≤ 'Z'

/-- The `.` class of a JavaScript regex without the `s` flag: any character
except line terminators. -/
def isDot (c : Char) : Bool :=
  ¬ (c = '\n' ∨ c = '\r' ∨ c = '\u2028' ∨ c = '\u2029')

/-- Head of the list is `[A-Z]` (false at end of input); the negative
lookahead `(?![A-Z])` succeeds exactly when this is false. -/
def headIsUpper : List Char → Bool
  | c :: _ => isUpper c
  | [] => false

/-! ## The LaTeX normalizer

`transcribeImage` applies four global `replace` calls in order:

1. `textContent.replace(/\\\(([\s\S]*?)\\\)/g, '$$$1$$')`
2. `textContent.replace(/\\\[([\s\S]*?)\\\]/g, '$$$$$1$$$$')`
3. `textContent.replace(/\\angle\s*\{?([A-Z]{3})\}?/g, '\\widehat{$1}')`
4. `textContent.replace(/\\angle\s*\{?([A-Z])\}?(?![A-Z])/g, '\\hat{$1}')`
-/

/-- Split a character list at the first occurrence of the two-character
sequence `a b`: returns the characters before it and the characters after it.
This is the lazy `[\s\S]*?` followed by the literal `a b` (here `[\s\S]`
really is any character, so no character-class restriction applies). -/
def splitAtSeq2 (a b : Char) : List Char → Option (List Char × List Char)
  | [] => none
  | [_] => none
  | x :: y :: rest =>
    if x = a ∧ y = b then some ([], rest)
    else
      match splitAtSeq2 a b (y :: rest) with
      | some (pre, post) => some (x :: pre, post)
      | none => none

/-- One delimiter-rewrite pass (rules 1 and 2): every `\oc … \cc` with a lazy
body becomes `wrap … wrap`.  `fuel` bounds the number of scanner steps; each
step consumes at least one input character, so `fuel = input length` is always
enough. -/
def ruleDelimF (oc cc : Char) (wrap : List Char) : Nat → List Char → List Char
  | _, [] => []
  | 0, l => l
  | fuel + 1, c :: rest =>
    if c = '\\' ∧ rest.head? = some oc then
      match splitAtSeq2 '\\' cc rest.tail with
      | some (inner, after) => wrap ++ inner ++ wrap ++ ruleDelimF oc cc wrap fuel after
      | none => c :: ruleDelimF oc cc wrap fuel rest
    else c :: ruleDelimF oc cc wrap fuel rest

/-- Match `\s*\{?([A-Z]{3})\}?` against the text following `\angle` (rule 3).
The whitespace run, the optional brace and the three capital letters are
drawn from disjoint character classes, so the backtracking of the JavaScript
engine reduces to: skip all whitespace, optionally one `{`, then require
exactly three capitals, then optionally one `}`. -/
def angleCore3 : List Char → Option (List Char × List Char)
  | a :: b :: c :: rest =>
    if isUpper a && isUpper b && isUpper c then
      if rest.head? = some '\x7d' then some ([a, b, c], rest.tail)
      else some ([a, b, c], rest)
    else none
  | _ => none

/-- Rule 3 after the literal `\angle`: drop `\s*`, then the optional `{`.
If the brace is consumed and the capitals fail, the braceless alternative
would have to match `{` as `[A-Z]` and fails as well, so the whole match
fails. -/
def matchAngle3 (l : List Char) : Option (List Char × List Char) :=
  if (l.dropWhile jsWhitespace).head? = some '\x7b' then
    angleCore3 (l.dropWhile jsWhitespace).tail
  else angleCore3 (l.dropWhile jsWhitespace)

/-- Match `([A-Z])\}?(?![A-Z])` (rule 4) after whitespace and the optional
`{` have been consumed.  When a `}` follows the letter the optional `\}?` is
tried greedily: if the lookahead then fails (a capital follows the `}`), the
engine backtracks to not consuming the `}`, and the lookahead sees the `}`
itself, which is not a capital, so the match succeeds ending before the
`}`. -/
def angleCore1 : List Char → Option (Char × List Char)
  | a :: rest =>
    if isUpper a then
      if rest.head? = some '\x7d' then
        if headIsUpper rest.tail then some (a, rest) else some (a, rest.tail)
      else if headIsUpper rest then none else some (a, rest)
    else none
  | [] => none

/-- Rule 4 after the literal `\angle`: drop `\s*`, then the optional `{`
(with the same failure analysis as in `matchAngle3`). -/
def matchAngle1 (l : List Char) : Option (Char × List Char) :=
  if (l.dropWhile jsWhitespace).head? = some '\x7b' then
    angleCore1 (l.dropWhile jsWhitespace).tail
  else angleCore1 (l.dropWhile jsWhitespace)

/-- Rule 3 scanner: `\angle\s*\{?([A-Z]{3})\}?` → `\widehat{$1}`. -/
def rule3F : Nat → List Char → List Char
  | _, [] => []
  | 0, l => l
  | fuel + 1, c :: rest =>
    if c = '\\' ∧ "angle".data.isPrefixOf rest then
      match matchAngle3 (rest.drop 5) with
      | some (letters, after) =>
        "\\widehat\x7b".data ++ letters ++ '\x7d' :: rule3F fuel after
      | none => c :: rule3F fuel rest
    else c :: rule3F fuel rest

/-- Rule 4 scanner: `\angle\s*\{?([A-Z])\}?(?![A-Z])` → `\hat{$1}`. -/
def rule4F : Nat → List Char → List Char
  | _, [] => []
  | 0, l => l
  | fuel + 1, c :: rest =>
    if c = '\\' ∧ "angle".data.isPrefixOf rest then
      match matchAngle1 (rest.drop 5) with
      | some (letter, after) =>
        "\\hat\x7b".data ++ letter :: '\x7d' :: rule4F fuel after
      | none => c :: rule4F fuel rest
    else c :: rule4F fuel rest

/-- The four-rule rewrite chain applied to every text segment's content. -/
def normalizeChars (l : List Char) : List Char :=
  let t1 := ruleDelimF '(' ')' ['$'] l.length l
  let t2 := ruleDelimF '[' ']' ['$', '$'] t1.length t1
  let t3 := rule3F t2.length t2
  rule4F t3.length t3

/-- The LaTeX normalizer as a string-to-string function. -/
def normalize (s : String) : String := String.mk (normalizeChars s.data)

/-! ## Fuel adequacy

Every scanner step consumes at least one input character, so any fuel at
least the input length computes the scanner's fixed meaning; in particular
the `length` fuels used by `normalizeChars` are adequate and the fuel is a
termination device only, not part of the modelled semantics. -/

theorem splitAtSeq2_length (a b : Char) :
    ∀ (l pre post : List Char), splitAtSeq2 a b l = some (pre, post) →
      post.length + 2 ≤ l.length := by
  intro l
  induction l with
  | nil => intro pre post h; simp [splitAtSeq2] at h
  | cons x t ih =>
    intro pre post h
    cases t with
    | nil => simp [splitAtSeq2] at h
    | cons y rest =>
      rw [splitAtSeq2] at h
      by_cases hxy : x = a ∧ y = b
      · rw [if_pos hxy] at h
        injection h with h'
        injection h' with h1 h2
        rw [← h2]
        simp only [List.length_cons]
        omega
      · rw [if_neg hxy] at h
        cases hs : splitAtSeq2 a b (y :: rest) with
        | none => rw [hs] at h; cases h
        | some pr =>
          rw [hs] at h
          obtain ⟨pre1, post1⟩ := pr
          injection h with h'
          injection h' with h1 h2
          have hih := ih pre1 post1 hs
          rw [← h2]
          simp only [List.length_cons] at hih ⊢
          omega

theorem ruleDelimF_fuel_irrel (oc cc : Char) (wrap : List Char) :
    ∀ (f g : Nat) (l : List Char), l.length ≤ f → l.length ≤ g →
      ruleDelimF oc cc wrap f l = ruleDelimF oc cc wrap g l := by
  intro f
  induction f with
  | zero =>
    intro g l hf hg
    have hl : l = [] := List.length_eq_zero.mp (Nat.le_zero.mp hf)
    subst hl
    cases g <;> rfl
  | succ f ih =>
    intro g l hf hg
    cases l with
    | nil => cases g <;> rfl
    | cons c rest =>
      cases g with
      | zero => simp at hg
      | succ g =>
        simp only [List.length_cons, Nat.succ_le_succ_iff] at hf hg
        simp only [ruleDelimF]
        by_cases hcond : c = '\\' ∧ rest.head? = some oc
        · rw [if_pos hcond, if_pos hcond]
          cases hs : splitAtSeq2 '\\' cc rest.tail with
          | none => rw [ih g rest hf hg]
          | some pr =>
            obtain ⟨inner, after⟩ := pr
            have hlen := splitAtSeq2_length '\\' cc rest.tail inner after hs
            have htail : rest.tail.length ≤ rest.length := by
              rw [List.length_tail]
              omega
            show wrap ++ inner ++ wrap ++ ruleDelimF oc cc wrap f after =
              wrap ++ inner ++ wrap ++ ruleDelimF oc cc wrap g after
            rw [ih g after (by omega) (by omega)]
        · rw [if_neg hcond, if_neg hcond, ih g rest hf hg]

theorem angleCore3_length :
    ∀ (t letters after : List Char), angleCore3 t = some (letters, after) →
      after.length ≤ t.length := by
  intro t letters after h
  cases t with
  | nil => simp [angleCore3] at h
  | cons a t1 =>
    cases t1 with
    | nil => simp [angleCore3] at h
    | cons b t2 =>
      cases t2 with
      | nil => simp [angleCore3] at h
      | cons c rest =>
        rw [angleCore3] at h
        by_cases hup : (isUpper a && isUpper b && isUpper c) = true
        · rw [if_pos hup] at h
          by_cases hh : rest.head? = some '\x7d'
          · rw [if_pos hh] at h
            injection h with h'
            injection h' with h1 h2
            rw [← h2]
            simp only [List.length_cons]
            rw [List.length_tail]
            omega
          · rw [if_neg hh] at h
            injection h with h'
            injection h' with h1 h2
            rw [← h2]
            simp only [List.length_cons]
            omega
        · rw [if_neg hup] at h
          cases h

theorem matchAngle3_length (l : List Char) (letters after : List Char)
    (h : matchAngle3 l = some (letters, after)) : after.length ≤ l.length := by
  unfold matchAngle3 at h
  have hdw : (l.dropWhile jsWhitespace).length ≤ l.length :=
    (List.dropWhile_sublist jsWhitespace).length_le
  by_cases hh : (l.dropWhile jsWhitespace).head? = some '\x7b'
  · rw [if_pos hh] at h
    have := angleCore3_length _ _ _ h
    have htail : (l.dropWhile jsWhitespace).tail.length ≤
        (l.dropWhile jsWhitespace).length := by
      rw [List.length_tail]
      omega
    omega
  · rw [if_neg hh] at h
    have := angleCore3_length _ _ _ h
    omega

theorem angleCore1_length :
    ∀ (t : List Char) (x : Char) (after : List Char),
      angleCore1 t = some (x, after) → after.length ≤ t.length := by
  intro t x after h
  cases t with
  | nil => cases h
  | cons a rest =>
    rw [angleCore1] at h
    by_cases hup : isUpper a = true
    · rw [if_pos hup] at h
      by_cases hh : rest.head? = some '\x7d'
      · rw [if_pos hh] at h
        by_cases hu2 : headIsUpper rest.tail = true
        · rw [if_pos hu2] at h
          injection h with h'
          injection h' with h1 h2
          rw [← h2]
          simp
        · rw [if_neg hu2] at h
          injection h with h'
          injection h' with h1 h2
          rw [← h2]
          simp only [List.length_cons]
          rw [List.length_tail]
          omega
      · rw [if_neg hh] at h
        by_cases hu2 : headIsUpper rest = true
        · rw [if_pos hu2] at h
          cases h
        · rw [if_neg hu2] at h
          injection h with h'
          injection h' with h1 h2
          rw [← h2]
          simp
    · rw [if_neg hup] at h
      cases h

theorem matchAngle1_length (l : List Char) (x : Char) (after : List Char)
    (h : matchAngle1 l = some (x, after)) : after.length ≤ l.length := by
  unfold matchAngle1 at h
  have hdw : (l.dropWhile jsWhitespace).length ≤ l.length :=
    (List.dropWhile_sublist jsWhitespace).length_le
  by_cases hh : (l.dropWhile jsWhitespace).head? = some '\x7b'
  · rw [if_pos hh] at h
    have := angleCore1_length _ _ _ h
    have htail : (l.dropWhile jsWhitespace).tail.length ≤
        (l.dropWhile jsWhitespace).length := by
      rw [List.length_tail]
      omega
    omega
  · rw [if_neg hh] at h
    have := angleCore1_length _ _ _ h
    omega

theorem rule3F_fuel_irrel :
    ∀ (f g : Nat) (l : List Char), l.length ≤ f → l.length ≤ g →
      rule3F f l = rule3F g l := by
  intro f
  induction f with
  | zero =>
    intro g l hf hg
    have hl : l = [] := List.length_eq_zero.mp (Nat.le_zero.mp hf)
    subst hl
    cases g <;> rfl
  | succ f ih =>
    intro g l hf hg
    cases l with
    | nil => cases g <;> rfl
    | cons c rest =>
      cases g with
      | zero => simp at hg
      | succ g =>
        simp only [List.length_cons, Nat.succ_le_succ_iff] at hf hg
        simp only [rule3F]
        by_cases hcond : c = '\\' ∧ "angle".data.isPrefixOf rest
        · rw [if_pos hcond, if_pos hcond]
          cases hs : matchAngle3 (rest.drop 5) with
          | none => rw [ih g rest hf hg]
          | some pr =>
            obtain ⟨letters, after⟩ := pr
            have hlen := matchAngle3_length _ _ _ hs
            have hdrop : (rest.drop 5).length ≤ rest.length := by
              rw [List.length_drop]
              omega
            show "\\widehat\x7b".data ++ letters ++ '\x7d' :: rule3F f after =
              "\\widehat\x7b".data ++ letters ++ '\x7d' :: rule3F g after
            rw [ih g after (by omega) (by omega)]
        · rw [if_neg hcond, if_neg hcond, ih g rest hf hg]

theorem rule4F_fuel_irrel :
    ∀ (f g : Nat) (l : List Char), l.length ≤ f → l.length ≤ g →
      rule4F f l = rule4F g l := by
  intro f
  induction f with
  | zero =>
    intro g l hf hg
    have hl : l = [] := List.length_eq_zero.mp (Nat.le_zero.mp hf)
    subst hl
    cases g <;> rfl
  | succ f ih =>
    intro g l hf hg
    cases l with
    | nil => cases g <;> rfl
    | cons c rest =>
      cases g with
      | zero => simp at hg
      | succ g =>
        simp only [List.length_cons, Nat.succ_le_succ_iff] at hf hg
        simp only [rule4F]
        by_cases hcond : c = '\\' ∧ "angle".data.isPrefixOf rest
        · rw [if_pos hcond, if_pos hcond]
          cases hs : matchAngle1 (rest.drop 5) with
          | none => rw [ih g rest hf hg]
          | some pr =>
            obtain ⟨letter, after⟩ := pr
            have hlen := matchAngle1_length _ _ _ hs
            have hdrop : (rest.drop 5).length ≤ rest.length := by
              rw [List.length_drop]
              omega
            show "\\hat\x7b".data ++ letter :: '\x7d' :: rule4F f after =
              "\\hat\x7b".data ++ letter :: '\x7d' :: rule4F g after
            rw [ih g after (by omega) (by omega)]
        · rw [if_neg hcond, if_neg hcond, ih g rest hf hg]

/-! ## Idempotence analysis of the normalizer -/

/-- `pat` occurs as a contiguous substring of the list. -/
def hasSub (pat : List Char) : List Char → Bool
  | [] => false
  | c :: rest => pat.isPrefixOf (c :: rest) || hasSub pat rest

/-- A delimiter pass is the identity on text containing no `\oc`. -/
theorem ruleDelimF_noop (oc cc : Char) (wrap : List Char) (fuel : Nat) :
    ∀ l : List Char, hasSub ['\\', oc] l = false → ruleDelimF oc cc wrap fuel l = l := by
  induction fuel with
  | zero => intro l h; cases l <;> rfl
  | succ fuel ih =>
    intro l h
    cases l with
    | nil => rfl
    | cons c rest =>
      rw [hasSub, Bool.or_eq_false_iff] at h
      obtain ⟨h1, h2⟩ := h
      rw [ruleDelimF, if_neg, ih rest h2]
      rintro ⟨hc, hh⟩
      cases rest with
      | nil => simp at hh
      | cons r rs =>
        simp at hh
        subst hc; subst hh
        simp [List.isPrefixOf] at h1

/-- The rule-3 pass is the identity on text containing no `\angle`. -/
theorem rule3F_noop (fuel : Nat) :
    ∀ l : List Char, hasSub "\\angle".data l = false → rule3F fuel l = l := by
  induction fuel with
  | zero => intro l h; cases l <;> rfl
  | succ fuel ih =>
    intro l h
    cases l with
    | nil => rfl
    | cons c rest =>
      rw [hasSub, Bool.or_eq_false_iff] at h
      obtain ⟨h1, h2⟩ := h
      rw [rule3F, if_neg, ih rest h2]
      rintro ⟨hc, hpre⟩
      subst hc
      rw [show "\\angle".data = '\\' :: "angle".data from rfl] at h1
      simp [List.isPrefixOf] at h1
      rw [h1] at hpre
      exact absurd hpre (by simp)

/-- The rule-4 pass is the identity on text containing no `\angle`. -/
theorem rule4F_noop (fuel : Nat) :
    ∀ l : List Char, hasSub "\\angle".data l = false → rule4F fuel l = l := by
  induction fuel with
  | zero => intro l h; cases l <;> rfl
  | succ fuel ih =>
    intro l h
    cases l with
    | nil => rfl
    | cons c rest =>
      rw [hasSub, Bool.or_eq_false_iff] at h
      obtain ⟨h1, h2⟩ := h
      rw [rule4F, if_neg, ih rest h2]
      rintro ⟨hc, hpre⟩
      subst hc
      rw [show "\\angle".data = '\\' :: "angle".data from rfl] at h1
      simp [List.isPrefixOf] at h1
      rw [h1] at hpre
      exact absurd hpre (by simp)

/-- C3 (counterexample): the LaTeX normalizer is not idempotent.  On the
input `\(\(\)\)` the first pass rewrites the outer pair (whose lazy body is
the unmatched `\(`) to `$\($` and copies the trailing `\)` verbatim, giving
`$\($\)`; a second pass then matches the freshly juxtaposed `\( … \)` and
yields `$$$$`. -/
theorem normalize_not_idempotent_cex :
    normalize (normalize "\\(\\(\\)\\)") ≠ normalize "\\(\\(\\)\\)" := by decide

/-- C3 (amended): the normalizer is idempotent on every string whose
normalization contains none of the substrings `\(`, `\[`, `\angle` (in
particular on all fully rewritten text with no residual delimiters); it is
not idempotent in general. -/
theorem normalize_idempotent_on_stable_strings (s : String)
    (h1 : hasSub ['\\', '('] (normalize s).data = false)
    (h2 : hasSub ['\\', '['] (normalize s).data = false)
    (h3 : hasSub "\\angle".data (normalize s).data = false) :
    normalize (normalize s) = normalize s := by
  have key : normalizeChars (normalize s).data = (normalize s).data := by
    have e1 := ruleDelimF_noop '(' ')' ['$'] (normalize s).data.length _ h1
    have e2 := ruleDelimF_noop '[' ']' ['$', '$'] (normalize s).data.length _ h2
    have e3 := rule3F_noop (normalize s).data.length _ h3
    have e4 := rule4F_noop (normalize s).data.length _ h3
    simp only [normalizeChars]
    rw [e1, e2, e3, e4]
  show String.mk (normalizeChars (normalize s).data) = normalize s
  rw [key]

theorem normalize_idempotent_on_stable_strings_witness :
    hasSub ['\\', '('] (normalize "x^2 + 1").data = false ∧
    normalize (normalize "x^2 + 1") = normalize "x^2 + 1" :=
  ⟨by decide,
    normalize_idempotent_on_stable_strings "x^2 + 1" (by decide) (by decide) (by decide)⟩

/-- C4: the normalizer maps the known inputs as specified: `\( x^2 \)` to
`$ x^2 $`, `\angle ABC` to `\widehat{ABC}`, `\angle A` to `\hat{A}`, and
leaves `\angle AB` unchanged (two capitals match neither angle rule). -/
theorem normalize_known_inputs :
    normalize "\\( x^2 \\)" = "$ x^2 $" ∧
    normalize "\\angle ABC" = "\\widehat\x7bABC\x7d" ∧
    normalize "\\angle A" = "\\hat\x7bA\x7d" ∧
    normalize "\\angle AB" = "\\angle AB" := by
  refine ⟨?_, ?_, ?_, ?_⟩ <;> decide

/-! ## The region cropper

`cropImageFromBase64` (src/services/fileProcessing.ts).  The pure core: once
the source image has decoded with integer dimensions `realWidth × realHeight`,
the box `[ymin, xmin, ymax, xmax]` (integers per the response schema) is
mapped to pixel bounds; the function resolves the empty string — "no crop",
modelled as `none` — when the computed width or height is not positive, and
otherwise draws the rectangle and resolves the crop, modelled as
`some` of the crop rectangle.  (Rejection on a corrupt source image or a
missing canvas context is environmental and outside the pure core.) -/

/-- Maximum document width for inserted images. -/
def MAX_WIDTH : ℚ := 600

/-- The scaling step of `generateDocx`: natural dimensions to inserted
dimensions. -/
def docxScale (w h : ℚ) : ℚ × ℚ :=
  if MAX_WIDTH < w then (MAX_WIDTH, h * (MAX_WIDTH / w)) else (w, h)

/-- C6: an image whose natural width exceeds 600 is inserted with both axes
multiplied by the same ratio `MAX_WIDTH / naturalWidth` (so the inserted
width is 600), and an image whose natural width is at most 600 is inserted
at natural size. -/
theorem docx_image_scaling (w h : ℚ) :
    (MAX_WIDTH < w → docxScale w h = (w * (MAX_WIDTH / w), h * (MAX_WIDTH / w))) ∧
    (w ≤ MAX_WIDTH → docxScale w h = (w, h)) := by
  constructor
  · intro hw
    have hw0 : w ≠ 0 := by
      have : (0 : ℚ) < w := lt_trans (by norm_num [MAX_WIDTH]) hw
      exact ne_of_gt this
    unfold docxScale
    rw [if_pos hw]
    have hcancel : w * (MAX_WIDTH / w) = MAX_WIDTH := by field_simp
    rw [hcancel]
  · intro hw
    unfold docxScale
    rw [if_neg (not_lt.mpr hw)]

/-- Instances from the specification: natural width 1200 gives inserted
width 600 with height halved; natural width 300 is inserted unscaled. -/
theorem docx_image_scaling_witness :
    docxScale 1200 800 = (600, 400) ∧ docxScale 300 200 = (300, 200) := by
  constructor
  · have h := (docx_image_scaling 1200 800).1 (by norm_num [MAX_WIDTH])
    rw [h]
    norm_num [MAX_WIDTH]
  · exact (docx_image_scaling 300 200).2 (by norm_num [MAX_WIDTH])

/-! ## The clipboard exporter: plain-text payload

`copyToClipboard` builds `plainText = pages.map(p => p.markdown).join('\n\n')`.
`jsJoin` is JavaScript's `Array.prototype.join`. -/

/-- A processed page (src/types.ts). -/
structure ProcessedPage where
  pageNumber : Nat
  imageUrl : String
  markdown : String

/-- JavaScript `Array.prototype.join`. -/
def jsJoin (sep : String) : List String → String
  | [] => ""
  | [s] => s
  | s :: rest => s ++ sep ++ jsJoin sep rest

/-- The `text/plain` clipboard representation built by `copyToClipboard`. -/
def clipboardPlainText (pages : List ProcessedPage) : String :=
  jsJoin "\n\n" (pages.map (fun p => p.markdown))

theorem jsJoin_eq_go (sep : String) :
    ∀ (rest : List String) (acc : String),
      String.intercalate.go acc sep rest = acc ++ jsJoin sep ("" :: rest) := by
  intro rest
  induction rest with
  | nil =>
    intro acc
    show acc = acc ++ ""
    rw [String.append_empty]
  | cons a as ih =>
    intro acc
    show String.intercalate.go (acc ++ sep ++ a) sep as = _
    rw [ih (acc ++ sep ++ a)]
    cases as with
    | nil => simp [jsJoin, String.append_assoc]
    | cons b bs => simp [jsJoin, String.append_assoc]

/-- C8: the plain-text clipboard payload equals all pages' Markdown strings,
in page order, joined with the blank-line separator `"\n\n"`. -/
theorem clipboard_plain_text_is_joined_markdown (pages : List ProcessedPage) :
    clipboardPlainText pages =
      String.intercalate "\n\n" (pages.map (fun p => p.markdown)) := by
  unfold clipboardPlainText
  generalize pages.map (fun p => p.markdown) = l
  cases l with
  | nil => rfl
  | cons a as =>
    show jsJoin "\n\n" (a :: as) = String.intercalate.go a "\n\n" as
    rw [jsJoin_eq_go "\n\n" as a]
    cases as with
    | nil => simp [jsJoin, String.append_empty]
    | cons b bs => simp [jsJoin, String.append_assoc]

/-! ## The shared image-reference regex

Both exporters scan each Markdown line with
`line.match(/!\[.*?\]\((data:image\/.*?;base64,(.*?))\)/)` and use capture
group 1 (the full data URL) respectively group 2 (the base64 payload).
The matcher below reproduces the JavaScript semantics: leftmost starting
position, lazy `.*?` runs (shortest first, extended on failure of the
continuation), `.` not matching line terminators. -/

/-- A lazy `.*?` run followed by the literal `sep` followed by the
continuation `k`: tries the literal at the current position first and
extends the run one (non-line-terminator) character at a time when the rest
fails.  Returns the run together with the continuation's result. -/
def lazyScan {α : Type} (sep : List Char) (k : List Char → Option α) :
    List Char → Option (List Char × α)
  | [] =>
    if sep.isPrefixOf ([] : List Char) then
      (k (([] : List Char).drop sep.length)).map fun a => ([], a)
    else none
  | c :: rest =>
    match
      (if sep.isPrefixOf (c :: rest) then
        (k ((c :: rest).drop sep.length)).map fun a => (([] : List Char), a)
      else none) with
    | some r => some r
    | none =>
      if isDot c then (lazyScan sep k rest).map fun p => (c :: p.1, p.2)
      else none

/-- The `(.*?)\)` tail: the base64 payload up to the closing parenthesis. -/
def scanPayload (l : List Char) : Option (List Char) :=
  (lazyScan [')'] (fun _ => some ()) l).map (fun p => p.1)

/-- The `.*?;base64,(.*?)\)` part: returns (mime run, payload run). -/
def scanMimeAndPayload (l : List Char) : Option (List Char × List Char) :=
  lazyScan ";base64,".data scanPayload l

/-- After the literal `](`: group 1 must start with `data:image/`. -/
def scanAfterBracket (l : List Char) : Option (List Char × List Char) :=
  if "data:image/".data.isPrefixOf l then scanMimeAndPayload (l.drop 11) else none

/-- Attempt the whole pattern anchored at the current position; on success
returns (group 1, group 2). -/
def matchImageAt (l : List Char) : Option (String × String) :=
  match l with
  | c1 :: c2 :: rest =>
    if c1 = '!' ∧ c2 = '[' then
      (lazyScan [']', '('] scanAfterBracket rest).map fun r =>
        (String.mk ("data:image/".data ++ r.2.1 ++ ";base64,".data ++ r.2.2),
          String.mk r.2.2)
    else none
  | _ => none

/-- `line.match(regex)`: the leftmost match, as (group 1, group 2). -/
def findImageMatch : List Char → Option (String × String)
  | [] => none
  | c :: rest =>
    match matchImageAt (c :: rest) with
    | some r => some r
    | none => findImageMatch rest

/-! ## The clipboard exporter: HTML payload (per line) -/

/-- Replace every occurrence of the character `c` by the characters `r`
(one JavaScript global single-character `replace`; replacements are not
rescanned). -/
def replaceCharList (c : Char) (r : List Char) : List Char → List Char
  | [] => []
  | x :: xs =>
    if x = c then r ++ replaceCharList c r xs else x :: replaceCharList c r xs

/-- The entity escaping of `copyToClipboard`:
`.replace(/&/g, "&amp;").replace(/</g, "&lt;").replace(/>/g, "&gt;")`. -/
def escapeHtml (s : String) : String :=
  String.mk (replaceCharList '>' "&gt;".data
    (replaceCharList '<' "&lt;".data
      (replaceCharList '&' "&amp;".data s.data)))

/-- JavaScript `String.prototype.trim`: strip `\s` characters from both
ends. -/
def jsTrim (s : String) : String :=
  String.mk (((s.data.dropWhile jsWhitespace).reverse.dropWhile jsWhitespace).reverse)

/-- The HTML emitted for an image line by `copyToClipboard`. -/
def imgHtml (dataUrl : String) : String :=
  "<p align=\"center\"><img src=\"" ++ dataUrl ++ "\" style=\"max-width: 400px;\" /></p>"

/-- The HTML emitted for a non-image line by `copyToClipboard`: entity
escaping, then a serif paragraph for non-blank lines and nothing for blank
ones. -/
def textHtml (line : String) : String :=
  let safeText := escapeHtml line
  if jsTrim safeText = "" then ""
  else
    "<p style=\"font-family: \x27Times New Roman\x27, serif; font-size: 12pt; margin-bottom: 8px;\">"
      ++ safeText ++ "</p>"

/-- One iteration of the line loop of `copyToClipboard`: an image line
(non-empty group 1) contributes only the centred `<img>` paragraph. -/
def htmlForLine (line : String) : String :=
  match findImageMatch line.data with
  | some (g1, _) => if g1 = "" then textHtml line else imgHtml g1
  | none => textHtml line

/-- The HTML built for one page: every line of the page's Markdown followed
by the page divider. -/
def pageHtml (page : ProcessedPage) : String :=
  String.join ((page.markdown.splitOn "\n").map htmlForLine) ++ "<br/><hr/><br/>"

/-! ## The binary document exporter (per line) -/

/-- A paragraph of the generated word-processor document.  `imageError` is
the `[Image Error]` placeholder paragraph pushed by the catch handler of
`generateDocx`. -/
inductive DocxBlock where
  | emptyPara : DocxBlock
  | image : ℚ → ℚ → String → DocxBlock
  | textPara : String → DocxBlock
  | imageError : DocxBlock
  | pageBreak : DocxBlock
deriving DecidableEq

/-- ASCII whitespace of the WHATWG infra standard (tab, LF, FF, CR, space),
stripped by `atob` before decoding. -/
def isAsciiWhitespaceHtml (c : Char) : Bool :=
  c = '\t' ∨ c = '\n' ∨ c = '\x0c' ∨ c = '\r' ∨ c = ' '

/-- The base64 alphabet `[A-Za-z0-9+/]`. -/
def isBase64Char (c : Char) : Bool :=
  ('A' ≤ c ∧ c ≤ 'Z') ∨ ('a' ≤ c ∧ c ≤ 'z') ∨ ('0' ≤ c ∧ c ≤ '9') ∨
  c = '+' ∨ c = '/'

/-- Whether JavaScript `atob` accepts the string — the precondition of the
HTML forgiving-base64 decode: strip ASCII whitespace; if the length is then
a multiple of four, remove up to two trailing `=`; fail when the remaining
length is 1 mod 4 or any remaining character is outside the base64
alphabet.  `atob` throwing is deterministic in its argument, so the decode
failure path of `generateDocx` is part of the pure model, not of the
environment. -/
def atobOk (s : String) : Bool :=
  let data := s.data.filter (fun c => ¬ isAsciiWhitespaceHtml c)
  let data2 :=
    if data.length % 4 = 0 then
      match data.reverse with
      | '=' :: '=' :: rest => rest.reverse
      | '=' :: rest => rest.reverse
      | _ => data
    else data
  if data2.length % 4 = 1 then false
  else data2.all isBase64Char

/-- One iteration of the line loop of `generateDocx`.  `dims` models the
asynchronous `getImageDimensions` measurement (including its 400 × 300
fallback; the promise always resolves, so measurement never throws).  After
measurement the code runs `atob(base64Data)` inside a try/catch: an invalid
payload makes `atob` throw deterministically and the catch pushes the
`[Image Error]` placeholder; on success the `ImageRun` is built from the
decoded bytes (construction and embedding of the run itself are library
behavior, modelled as succeeding).  A line whose match has an empty group 2
fails the `imageMatch[2]` truthiness test and falls through to the
plain-text branch. -/
def docxLine (dims : String → ℚ × ℚ) (line : String) : DocxBlock :=
  if jsTrim line = "" then .emptyPara
  else
    match findImageMatch line.data with
    | some (_, g2) =>
      if g2 = "" then .textPara line
      else if atobOk g2 then
        let d := dims g2
        let s := docxScale d.1 d.2
        .image s.1 s.2 g2
      else .imageError
    | none => .textPara line

/-- The paragraph sequence built for one page by `generateDocx`: the lines
of the page's Markdown, then a page break. -/
def pageDocx (dims : String → ℚ × ℚ) (page : ProcessedPage) : List DocxBlock :=
  (page.markdown.splitOn "\n").map (docxLine dims) ++ [.pageBreak]

/-- The whole document body built by `generateDocx`. -/
def generateDocx (dims : String → ℚ × ℚ) (pages : List ProcessedPage) :
    List DocxBlock :=
  (pages.map (pageDocx dims)).flatten

/-! ## C10: image lines in the two exporters -/

/-- Group 1 of a successful match starts with the literal `data:image/` and
is therefore never the empty string (so the clipboard exporter's
`imageMatch[1]` truthiness test always passes on a match). -/
theorem matchImageAt_group1_ne_empty (l : List Char) (g1 g2 : String)
    (h : matchImageAt l = some (g1, g2)) : g1 ≠ "" := by
  cases l with
  | nil => simp [matchImageAt] at h
  | cons c1 t =>
    cases t with
    | nil => simp [matchImageAt] at h
    | cons c2 rest =>
      rw [matchImageAt] at h
      by_cases hc : c1 = '!' ∧ c2 = '['
      · rw [if_pos hc] at h
        cases hs : lazyScan [']', '('] scanAfterBracket rest with
        | none => rw [hs] at h; cases h
        | some r =>
          rw [hs] at h
          simp only [Option.map_some'] at h
          injection h with h'
          injection h' with hg1 hg2
          intro he
          rw [he] at hg1
          have hdata : "data:image/".data ++ r.2.1 ++ ";base64,".data ++ r.2.2 =
              ([] : List Char) := congrArg String.data hg1
          simp only [List.append_eq_nil] at hdata
          exact absurd hdata.1.1.1 (by decide)
      · rw [if_neg hc] at h
        cases h

/-- The leftmost-match variant of `matchImageAt_group1_ne_empty`. -/
theorem findImageMatch_group1_ne_empty :
    ∀ (l : List Char) (g1 g2 : String), findImageMatch l = some (g1, g2) → g1 ≠ "" := by
  intro l
  induction l with
  | nil => intro g1 g2 h; cases h
  | cons c rest ih =>
    intro g1 g2 h
    rw [findImageMatch] at h
    cases hm : matchImageAt (c :: rest) with
    | none => rw [hm] at h; exact ih g1 g2 h
    | some r =>
      rw [hm] at h
      injection h with h'
      rw [h'] at hm
      exact matchImageAt_group1_ne_empty _ g1 g2 hm

/-- A line with a successful image match contains a non-whitespace character
(the leading `!` of the reference). -/
theorem findImageMatch_exists_nonws :
    ∀ (l : List Char) (r : String × String), findImageMatch l = some r →
      ∃ c ∈ l, jsWhitespace c = false := by
  intro l
  induction l with
  | nil => intro r h; cases h
  | cons c rest ih =>
    intro r h
    rw [findImageMatch] at h
    cases hm : matchImageAt (c :: rest) with
    | none =>
      rw [hm] at h
      obtain ⟨x, hx, hws⟩ := ih r h
      exact ⟨x, List.mem_cons_of_mem _ hx, hws⟩
    | some r2 =>
      cases rest with
      | nil => simp [matchImageAt] at hm
      | cons c2 rest2 =>
        by_cases hc : c = '!' ∧ c2 = '['
        · exact ⟨c, List.mem_cons_self _ _, by rw [hc.1]; decide⟩
        · rw [matchImageAt, if_neg hc] at hm
          cases hm

/-- A string that trims to empty consists of whitespace only. -/
theorem jsTrim_eq_empty_all_ws (s : String) (h : jsTrim s = "") :
    ∀ c ∈ s.data, jsWhitespace c = true := by
  intro c hc
  have hdata : ((s.data.dropWhile jsWhitespace).reverse.dropWhile jsWhitespace).reverse =
      ([] : List Char) := congrArg String.data h
  rw [List.reverse_eq_nil_iff, List.dropWhile_eq_nil_iff] at hdata
  have hdrop : ∀ x ∈ s.data.dropWhile jsWhitespace, jsWhitespace x = true := by
    intro x hx
    exact hdata x (List.mem_reverse.mpr hx)
  have hsplit : c ∈ s.data.takeWhile jsWhitespace ++ s.data.dropWhile jsWhitespace := by
    rw [List.takeWhile_append_dropWhile]
    exact hc
  rcases List.mem_append.mp hsplit with h1 | h2
  · exact List.mem_takeWhile_imp h1
  · exact hdrop c h2

/-- A line with a successful image match does not trim to the empty string,
so `generateDocx` does not turn it into an empty paragraph. -/
theorem jsTrim_ne_empty_of_match {line : String} {r : String × String}
    (h : findImageMatch line.data = some r) : jsTrim line ≠ "" := by
  intro he
  obtain ⟨c, hc, hws⟩ := findImageMatch_exists_nonws line.data r h
  rw [jsTrim_eq_empty_all_ws line he c hc] at hws
  cases hws

/-- C10 (counterexample): on the line `ab![x](data:image/png;base64,)cd` the
image-reference pattern matches (with an empty base64 payload), yet
`generateDocx` fails the `imageMatch[2]` truthiness test and emits the whole
line — including the surrounding text `ab` and `cd` — as a text paragraph,
instead of emitting only the image. -/
theorem docx_keeps_text_around_empty_payload_image :
    findImageMatch "ab![x](data:image/png;base64,)cd".data =
      some ("data:image/png;base64,", "") ∧
    docxLine (fun _ => (100, 80)) "ab![x](data:image/png;base64,)cd" =
      DocxBlock.textPara "ab![x](data:image/png;base64,)cd" := by
  constructor
  · decide
  · decide

/-- C10 (amended): for every Markdown line matching the image-reference
pattern with a **non-empty** base64 payload, the clipboard exporter emits
only the centred `<img>` paragraph built from group 1 alone, discarding any
other text on the line; the binary exporter also discards the line's text,
emitting — when the payload is valid base64 (`atob` accepts it) — only the
image paragraph built from group 2 and its measured dimensions, and — when
the non-empty payload is invalid (`atob` throws) — only the `[Image Error]`
placeholder.  (With an empty payload the clipboard exporter still emits only
the image, but the binary exporter emits the whole line as text.) -/
theorem image_line_emits_only_image (line : String) (dims : String → ℚ × ℚ)
    (g1 g2 : String) (h : findImageMatch line.data = some (g1, g2))
    (hg2 : g2 ≠ "") :
    htmlForLine line = imgHtml g1 ∧
    (atobOk g2 = true →
      docxLine dims line =
        DocxBlock.image (docxScale (dims g2).1 (dims g2).2).1
          (docxScale (dims g2).1 (dims g2).2).2 g2) ∧
    (atobOk g2 = false → docxLine dims line = DocxBlock.imageError) := by
  have hg1 := findImageMatch_group1_ne_empty line.data g1 g2 h
  have htrim := jsTrim_ne_empty_of_match h
  refine ⟨?_, ?_, ?_⟩
  · unfold htmlForLine
    rw [h]
    exact if_neg hg1
  · intro hvalid
    unfold docxLine
    rw [if_neg htrim, h]
    show (if g2 = "" then DocxBlock.textPara line
      else if atobOk g2 = true then
        DocxBlock.image (docxScale (dims g2).1 (dims g2).2).1
          (docxScale (dims g2).1 (dims g2).2).2 g2
      else DocxBlock.imageError) =
      DocxBlock.image (docxScale (dims g2).1 (dims g2).2).1
        (docxScale (dims g2).1 (dims g2).2).2 g2
    rw [if_neg hg2, if_pos hvalid]
  · intro hinvalid
    unfold docxLine
    rw [if_neg htrim, h]
    show (if g2 = "" then DocxBlock.textPara line
      else if atobOk g2 = true then
        DocxBlock.image (docxScale (dims g2).1 (dims g2).2).1
          (docxScale (dims g2).1 (dims g2).2).2 g2
      else DocxBlock.imageError) = DocxBlock.imageError
    rw [if_neg hg2, if_neg (by rw [hinvalid]; exact Bool.false_ne_true)]

theorem image_line_emits_only_image_witness :
    htmlForLine "x![a](data:image/png;base64,QQ==)y" =
      imgHtml "data:image/png;base64,QQ==" ∧
    docxLine (fun _ => ((50 : ℚ), (60 : ℚ))) "x![a](data:image/png;base64,QQ==)y" =
      DocxBlock.image (docxScale 50 60).1 (docxScale 50 60).2 "QQ==" ∧
    docxLine (fun _ => ((50 : ℚ), (60 : ℚ))) "x![a](data:image/png;base64,!)y" =
      DocxBlock.imageError := by
  refine ⟨?_, ?_, ?_⟩
  · exact (image_line_emits_only_image "x![a](data:image/png;base64,QQ==)y"
      (fun _ => ((50 : ℚ), (60 : ℚ))) "data:image/png;base64,QQ==" "QQ=="
      (by decide) (by decide)).1
  · exact (image_line_emits_only_image "x![a](data:image/png;base64,QQ==)y"
      (fun _ => ((50 : ℚ), (60 : ℚ))) "data:image/png;base64,QQ==" "QQ=="
      (by decide) (by decide)).2.1 (by decide)
  · exact (image_line_emits_only_image "x![a](data:image/png;base64,!)y"
      (fun _ => ((50 : ℚ), (60 : ℚ))) "data:image/png;base64,!" "!"
      (by decide) (by decide)).2.2 (by decide)

/-! ## The OCR response parser (`transcribeImage`)

The post-response processing of `transcribeImage`: strip code fences, parse
as JSON (`jsonParse` parameter; `none` models a `JSON.parse` throw), read
`data.parts`, and fold the parts into Markdown.  The asynchronous
`cropImageFromBase64` call on the page raster is abstracted as
`cropFn : JsVal → Option String`, where `none` models a rejected crop
promise (caught and logged by the loop) and `some s` a resolved base64
string — the loop inserts the figure only when `s` is truthy.
`Except.error ()` models an exception reaching the outer `catch`, which
rethrows it to the caller. -/

/-- `jsonText.replace(/^```json\s*/, "")`. -/
def stripLeadFence (l : List Char) : List Char :=
  if "```json".data.isPrefixOf l then (l.drop 7).dropWhile jsWhitespace else l

/-- `jsonText.replace(/\s*```$/, "")` (the `$`-anchored leftmost match
removes the trailing backticks and the maximal whitespace run before
them). -/
def stripTailFence (l : List Char) : List Char :=
  let r := l.reverse
  if "```".data.isPrefixOf r then ((r.drop 3).dropWhile jsWhitespace).reverse
  else l

/-- The code-fence cleanup applied to the raw model response text. -/
def stripFences (s : String) : String :=
  String.mk (stripTailFence (stripLeadFence s.data))

/-- One iteration of the parts loop.  Member access throws on a `null`
element (modelled by `Except.error`); JavaScript evaluates `part.type`
first, but reading any key of the same value throws in exactly the same
cases, so the bundled reads are faithful.  Calling `.replace(...)` on a
truthy non-string `content` throws a `TypeError`, also `Except.error`. -/
def processPart (cropFn : JsVal → Option String) (part : JsVal) :
    Except Unit String :=
  match part.getMember "type", part.getMember "content", part.getMember "box_2d" with
  | .error e, _, _ => .error e
  | _, .error e, _ => .error e
  | _, _, .error e => .error e
  | .ok ty, .ok content, .ok box =>
    if ty.isStr "text" && content.truthy then
      match content with
      | .str s => .ok (normalize s ++ "\n\n")
      | _ => .error ()
    else if ty.isStr "figure" && box.truthy then
      match cropFn box with
      | some s =>
        if s = "" then .ok ""
        else .ok ("![Figure](data:image/jpeg;base64," ++ s ++ ")\n\n")
      | none => .ok ""
    else .ok ""

/-- The `finalMarkdown` accumulation over the parts list. -/
def assembleParts (cropFn : JsVal → Option String) :
    String → List JsVal → Except Unit String
  | acc, [] => .ok acc
  | acc, p :: rest =>
    match processPart cropFn p with
    | .error e => .error e
    | .ok piece => assembleParts cropFn (acc ++ piece) rest

/-- The parse-and-reconstruct step of `transcribeImage`, applied to the
fence-stripped response text: parse failure returns the text itself;
otherwise `data.parts` is read (throwing on `null`), the
`!data.parts || !Array.isArray(data.parts)` guard returns the empty string,
and the parts loop assembles the page's Markdown. -/
def parsePageMarkdown (jsonParse : String → Option JsVal)
    (cropFn : JsVal → Option String) (jsonText : String) : Except Unit String :=
  match jsonParse jsonText with
  | none => .ok jsonText
  | some data =>
    match data.getMember "parts" with
    | .error e => .error e
    | .ok parts =>
      if !parts.truthy || !parts.isArray then .ok ""
      else
        match parts with
        | .arr xs => assembleParts cropFn "" xs
        | _ => .ok ""

/-- The whole post-response step: fence stripping, then parsing. -/
def transcribeStep (jsonParse : String → Option JsVal)
    (cropFn : JsVal → Option String) (responseText : String) :
    Except Unit String :=
  parsePageMarkdown jsonParse cropFn (stripFences responseText)

/-- C2: whenever the fence-stripped response text fails to parse as JSON,
the parser step returns exactly that raw text as the page's Markdown, and no
exception escapes (the result is `ok`). -/
theorem parse_failure_returns_raw_text (jsonParse : String → Option JsVal)
    (cropFn : JsVal → Option String) (jsonText : String)
    (h : jsonParse jsonText = none) :
    parsePageMarkdown jsonParse cropFn jsonText = .ok jsonText := by
  unfold parsePageMarkdown
  rw [h]

theorem parse_failure_returns_raw_text_witness :
    parsePageMarkdown (fun _ => none) (fun _ => none) "this is not JSON" =
      .ok "this is not JSON" :=
  parse_failure_returns_raw_text (fun _ => none) (fun _ => none)
    "this is not JSON" rfl

/-- C7 (counterexample): the response text `"null"` parses as the JSON value
`null`, whose `parts` field is certainly "missing", yet `transcribeImage`
does not return an empty document: reading `data.parts` throws a
`TypeError`, which the outer catch rethrows to the caller. -/
theorem parse_null_response_throws :
    parsePageMarkdown (fun _ => some JsVal.null) (fun _ => none) "null" =
        .error () ∧
      parsePageMarkdown (fun _ => some JsVal.null) (fun _ => none) "null" ≠
        .ok "" := by
  constructor
  · rfl
  · intro h
    cases h

/-- C7 (amended): for every model response parsing to a **non-null** JSON
value whose top-level `parts` field is missing, falsy, or not an array,
`transcribeImage` returns the empty string for that page and raises no
error.  (A response parsing to `null` instead makes the `data.parts` read
throw.) -/
theorem parts_missing_returns_empty (jsonParse : String → Option JsVal)
    (cropFn : JsVal → Option String) (jsonText : String) (v : JsVal)
    (hparse : jsonParse jsonText = some v)
    (hnn : v ≠ JsVal.null) (hnu : v ≠ JsVal.undefinedV)
    (hparts : ∀ u, v.getMember "parts" = .ok u →
      u.truthy = false ∨ u.isArray = false) :
    parsePageMarkdown jsonParse cropFn jsonText = .ok "" := by
  have hok : ∃ u, v.getMember "parts" = .ok u := by
    cases v with
    | undefinedV => exact absurd rfl hnu
    | null => exact absurd rfl hnn
    | bool b => exact ⟨_, rfl⟩
    | num q => exact ⟨_, rfl⟩
    | str s => exact ⟨_, rfl⟩
    | arr xs => exact ⟨_, rfl⟩
    | obj fields => exact ⟨_, rfl⟩
  obtain ⟨u, hu⟩ := hok
  unfold parsePageMarkdown
  simp only [hparse, hu]
  rcases hparts u hu with hf | hf
  · simp [hf]
  · simp [hf]

theorem parts_missing_returns_empty_witness :
    parsePageMarkdown (fun _ => some (JsVal.obj [])) (fun _ => none) "\x7b\x7d" =
      .ok "" := by
  apply parts_missing_returns_empty (fun _ => some (JsVal.obj [])) (fun _ => none)
    "\x7b\x7d" (JsVal.obj []) rfl
  · intro h
    cases h
  · intro h
    cases h
  · intro u hu
    injection hu with hu'
    rw [← hu']
    exact Or.inl rfl

/-- C9: a parts item whose `type` is `"text"` but whose `content` is absent
(`undefined` after lookup) or the empty string is silently skipped: the
assembled Markdown is the same as if the item were not in the list, with no
separator emitted and no error raised. -/
theorem falsy_text_content_skipped (cropFn : JsVal → Option String)
    (acc : String) (rest : List JsVal) (p : JsVal)
    (hty : p.getMember "type" = .ok (JsVal.str "text"))
    (hc : p.getMember "content" = .ok JsVal.undefinedV ∨
      p.getMember "content" = .ok (JsVal.str "")) :
    assembleParts cropFn acc (p :: rest) = assembleParts cropFn acc rest := by
  have hpiece : processPart cropFn p = .ok "" := by
    have hbox : ∃ b, p.getMember "box_2d" = .ok b := by
      cases p with
      | undefinedV => cases hty
      | null => cases hty
      | bool b => exact ⟨_, rfl⟩
      | num q => exact ⟨_, rfl⟩
      | str s => exact ⟨_, rfl⟩
      | arr xs => exact ⟨_, rfl⟩
      | obj fields => exact ⟨_, rfl⟩
    obtain ⟨b, hb⟩ := hbox
    unfold processPart
    rcases hc with hc | hc
    · rw [hty, hc, hb]
      simp [JsVal.isStr, JsVal.truthy]
    · rw [hty, hc, hb]
      simp [JsVal.isStr, JsVal.truthy]
  rw [assembleParts, hpiece]
  show assembleParts cropFn (acc ++ "") rest = assembleParts cropFn acc rest
  rw [String.append_empty]

theorem falsy_text_content_skipped_witness :
    assembleParts (fun _ => none) ""
        [JsVal.obj [("type", JsVal.str "text")]] =
      assembleParts (fun _ => none) "" [] :=
  falsy_text_content_skipped (fun _ => none) "" []
    (JsVal.obj [("type", JsVal.str "text")]) rfl (Or.inl rfl)

end NVT
